import Mathlib

/-!
Verification development for the EventId renumbering scripts
(`scripts/organize_eventids.py` and `scripts/reorganize_eventids.py`).
Text is embedded as `List Char`; the Python regular-expression operations
used by the scripts are embedded as explicit scanners, and `re.sub` /
`re.findall` loops are embedded with an explicit fuel argument equal to
the text length (each scanning step consumes at least one character, so
that amount of fuel is always sufficient).
-/

namespace EventIds

/-! ### Character classes (`\s`, `\d`, `\w` over the ASCII range) -/

def isSpaceCh (c : Char) : Bool :=
  c == ' ' || c == '\t' || c == '\n' || c == '\r' ||
  c == Char.ofNat 11 || c == Char.ofNat 12

def isDigitCh (c : Char) : Bool :=
  '0' ≤ c && c ≤ '9'

def isWordCh (c : Char) : Bool :=
  ('a' ≤ c && c ≤ 'z') || ('A' ≤ c && c ≤ 'Z') || isDigitCh c || c == '_'

/-- Decimal digit character for a value below 10. -/
def digitChar (n : Nat) : Char := Char.ofNat (48 + n)

/-- Decimal representation of a natural number (Python `str(n)`). -/
def natDigitsAux : Nat → Nat → List Char
  | 0, _ => []
  | f + 1, n => if n < 10 then [digitChar n] else natDigitsAux f (n / 10) ++ [digitChar (n % 10)]

def natDigits (n : Nat) : List Char := natDigitsAux (n + 1) n

/-- Numeric value of a digit string (Python `int(s)`). -/
def digitsVal (s : List Char) : Nat :=
  s.foldl (fun a c => 10 * a + (c.toNat - 48)) 0

/-! ### Literal and substring matching -/

/-- Match a literal prefix; on success return the remaining text. -/
def litp : List Char → List Char → Option (List Char)
  | [], s => some s
  | _, [] => none
  | p :: ps, c :: cs => if p == c then litp ps cs else none

/-- Python `pat in s` substring containment. -/
def containsSub (p : List Char) : List Char → Bool
  | [] => p.isEmpty
  | c :: rest => p.isPrefixOf (c :: rest) || containsSub p rest

def evStr : List Char := ('E') :: ('v') :: ('e') :: ('n') :: ('t') :: ('I') :: ('d') :: []

/-- Head of the remaining text is not a word character (regex `\b` after a digit). -/
def headNonWord : List Char → Bool
  | [] => true
  | c :: _ => !(isWordCh c)

/-- Head of the remaining text is not a digit (or the text is empty). -/
def headNonDigit : List Char → Bool
  | [] => true
  | c :: _ => !(isDigitCh c)

/-! ### The pattern `(EventId\s*=\s*){old}\b` used by both scripts' rewriters -/

/-- Try to match `(EventId\s*=\s*){old}\b` at the head of `s`.  On success
return the text captured by group 1 together with the remaining text. -/
def tryMatchEq (old : Nat) (s : List Char) : Option (List Char × List Char) :=
  match litp evStr s with
  | none => none
  | some r1 =>
    let w1 := r1.takeWhile isSpaceCh
    let r2 := r1.dropWhile isSpaceCh
    match litp [('=')] r2 with
    | none => none
    | some r3 =>
      let w2 := r3.takeWhile isSpaceCh
      let r4 := r3.dropWhile isSpaceCh
      match litp (natDigits old) r4 with
      | none => none
      | some r5 =>
        if headNonWord r5 then some (evStr ++ w1 ++ ('=') :: w2, r5) else none

/-- Fuel-driven embedding of
`re.sub(rf'(EventId\s*=\s*){old}\b', rf'\g<1>{new}', s)`:
left-to-right scan, non-overlapping matches, each match replaced by the
group-1 text followed by the decimal digits of `new`. -/
def reSubGo (old new : Nat) : Nat → List Char → List Char
  | 0, s => s
  | _ + 1, [] => []
  | f + 1, c :: rest =>
    match tryMatchEq old (c :: rest) with
    | some (g, r5) => g ++ natDigits new ++ reSubGo old new f r5
    | none => c :: reSubGo old new f rest

def reSubEventId (old new : Nat) (s : List Char) : List Char :=
  reSubGo old new s.length s

/-! ### The pattern `EventId\s*=\s*(\d+)` used by both scripts' extractors -/

/-- Try to match `EventId\s*=\s*(\d+)` at the head of `s`; on success return
the captured numeric value together with the text after the match. -/
def tryMatchNum (s : List Char) : Option (Nat × List Char) :=
  match litp evStr s with
  | none => none
  | some r1 =>
    let r2 := r1.dropWhile isSpaceCh
    match litp [('=')] r2 with
    | none => none
    | some r3 =>
      let r4 := r3.dropWhile isSpaceCh
      let d := r4.takeWhile isDigitCh
      if d.isEmpty then none else some (digitsVal d, r4.dropWhile isDigitCh)

/-- `re.search(r'EventId\s*=\s*(\d+)', line)`: value of the first match. -/
def searchEventIdNum : List Char → Option Nat
  | [] => none
  | c :: rest =>
    match tryMatchNum (c :: rest) with
    | some (v, _) => some v
    | none => searchEventIdNum rest

/-- `re.findall(r'EventId\s*=\s*(\d+)', s)` (also `re.finditer`): all
non-overlapping match values, scanning left to right.  Fuel-driven. -/
def findAllNumsGo : Nat → List Char → List Nat
  | 0, _ => []
  | _ + 1, [] => []
  | f + 1, c :: rest =>
    match tryMatchNum (c :: rest) with
    | some (v, r) => v :: findAllNumsGo f r
    | none => findAllNumsGo f rest

def findAllNums (s : List Char) : List Nat := findAllNumsGo s.length s

/-! ### Positional `[LoggerMessage(...)]` forms -/

def lmOpenStr : List Char := (("[LoggerMessage(").toList)

def logLevelStr : List Char := (("LogLevel.").toList)

/-- Try to match `\[LoggerMessage\(\s*(\d+)\s*,` at the head of `s`. -/
def tryMatchSingle (s : List Char) : Option (Nat × List Char) :=
  match litp lmOpenStr s with
  | none => none
  | some r1 =>
    let r2 := r1.dropWhile isSpaceCh
    let d := r2.takeWhile isDigitCh
    if d.isEmpty then none
    else
      let r3 := (r2.dropWhile isDigitCh).dropWhile isSpaceCh
      match litp [(',')] r3 with
      | none => none
      | some r4 => some (digitsVal d, r4)

/-- Try to match `\[LoggerMessage\(\s*\n\s*(\d+)\s*,` at the head of `s`.
`\s*\n\s*` matches exactly a whitespace run containing at least one newline
(the greedy `\s*` backtracks to the last newline of the run). -/
def tryMatchMulti (s : List Char) : Option (Nat × List Char) :=
  match litp lmOpenStr s with
  | none => none
  | some r1 =>
    let w := r1.takeWhile isSpaceCh
    if !(w.contains '\n') then none
    else
      let r2 := r1.dropWhile isSpaceCh
      let d := r2.takeWhile isDigitCh
      if d.isEmpty then none
      else
        let r3 := (r2.dropWhile isDigitCh).dropWhile isSpaceCh
        match litp [(',')] r3 with
        | none => none
        | some r4 => some (digitsVal d, r4)

def findAllGo (m : List Char → Option (Nat × List Char)) : Nat → List Char → List Nat
  | 0, _ => []
  | _ + 1, [] => []
  | f + 1, c :: rest =>
    match m (c :: rest) with
    | some (v, r) => v :: findAllGo m f r
    | none => findAllGo m f rest

/-- `extract_eventids`: values of all three recognized forms, de-duplicated
and sorted ascending (`sorted(list(set(eventids)))`). -/
def extractEventIds (s : List Char) : List Nat :=
  let named := findAllNums s
  let single := findAllGo tryMatchSingle s.length s
  let multi := findAllGo tryMatchMulti s.length s
  List.insertionSort (· ≤ ·) ((named ++ single ++ multi).dedup)

/-! ### `has_positional_format` -/

/-- Match `\[LoggerMessage\(\s*\d+\s*,\s*LogLevel\.\w+\s*,` at the head. -/
def tryPosSingle (s : List Char) : Bool :=
  match litp lmOpenStr s with
  | none => false
  | some r1 =>
    let r2 := r1.dropWhile isSpaceCh
    let d := r2.takeWhile isDigitCh
    if d.isEmpty then false
    else
      let r3 := (r2.dropWhile isDigitCh).dropWhile isSpaceCh
      match litp [(',')] r3 with
      | none => false
      | some r4 =>
        match litp logLevelStr (r4.dropWhile isSpaceCh) with
        | none => false
        | some r5 =>
          let w := r5.takeWhile isWordCh
          if w.isEmpty then false
          else
            match litp [(',')] ((r5.dropWhile isWordCh).dropWhile isSpaceCh) with
            | none => false
            | some _ => true

/-- Match `\[LoggerMessage\(\s*\n\s*\d+\s*,\s*\n\s*LogLevel\.\w+\s*,` at the head. -/
def tryPosMulti (s : List Char) : Bool :=
  match litp lmOpenStr s with
  | none => false
  | some r1 =>
    if !((r1.takeWhile isSpaceCh).contains '\n') then false
    else
      let r2 := r1.dropWhile isSpaceCh
      let d := r2.takeWhile isDigitCh
      if d.isEmpty then false
      else
        let r3 := (r2.dropWhile isDigitCh).dropWhile isSpaceCh
        match litp [(',')] r3 with
        | none => false
        | some r4 =>
          if !((r4.takeWhile isSpaceCh).contains '\n') then false
          else
            match litp logLevelStr (r4.dropWhile isSpaceCh) with
            | none => false
            | some r5 =>
              let w := r5.takeWhile isWordCh
              if w.isEmpty then false
              else
                match litp [(',')] ((r5.dropWhile isWordCh).dropWhile isSpaceCh) with
                | none => false
                | some _ => true

def searchBool (m : List Char → Bool) : List Char → Bool
  | [] => false
  | c :: rest => m (c :: rest) || searchBool m rest

/-- `has_positional_format`. -/
def hasPositionalFormat (s : List Char) : Bool :=
  searchBool tryPosSingle s || searchBool tryPosMulti s

/-! ### `standardize_loggermessage_format`

The single-line pattern
`\[LoggerMessage\(\s*(\d+)\s*,\s*(LogLevel\.\w+)\s*,\s*(".*?")\s*\)\]`
is applied without flags (`.` does not cross newlines), then the multi-line
pattern with `re.MULTILINE | re.DOTALL` (`.` crosses newlines, and each
`\s*\n\s*` is a whitespace run containing a newline).  The lazy `".*?"`
group takes the first closing quote after which the rest of the pattern
succeeds. -/

/-- Suffix `\s*\)\]` after the message group of the single-line pattern. -/
def closeSfx1 (s : List Char) : Option (List Char) :=
  litp [(')'), (']')] (s.dropWhile isSpaceCh)

/-- Suffix `\s*\n\s*\)\]` after the message group of the multi-line pattern. -/
def closeSfx2 (s : List Char) : Option (List Char) :=
  if (s.takeWhile isSpaceCh).contains '\n' then
    litp [(')'), (']')] (s.dropWhile isSpaceCh)
  else none

/-- Scan the lazy `.*?"` + suffix: return the shortest body up to a closing
quote whose suffix matches, together with the text after the suffix. -/
def msgScan (allowNl : Bool) (sfx : List Char → Option (List Char)) :
    List Char → Option (List Char × List Char)
  | [] => none
  | c :: rest =>
    match (if c == '"' then sfx rest else none) with
    | some r => some ([], r)
    | none =>
      if allowNl || !(c == '\n') then
        match msgScan allowNl sfx rest with
        | some (b, r) => some (c :: b, r)
        | none => none
      else none

/-- Groups of a standardization match: digits, `LogLevel.…` text, quoted
message; plus the remaining text after the whole match. -/
def tryMatchStd (requireNl : Bool) (s : List Char) :
    Option ((List Char × List Char × List Char) × List Char) :=
  match litp lmOpenStr s with
  | none => none
  | some r1 =>
    if requireNl && !((r1.takeWhile isSpaceCh).contains '\n') then none
    else
      let r2 := r1.dropWhile isSpaceCh
      let d := r2.takeWhile isDigitCh
      if d.isEmpty then none
      else
        match litp [(',')] ((r2.dropWhile isDigitCh).dropWhile isSpaceCh) with
        | none => none
        | some r4 =>
          if requireNl && !((r4.takeWhile isSpaceCh).contains '\n') then none
          else
            match litp logLevelStr (r4.dropWhile isSpaceCh) with
            | none => none
            | some r5 =>
              let wd := r5.takeWhile isWordCh
              if wd.isEmpty then none
              else
                match litp [(',')] ((r5.dropWhile isWordCh).dropWhile isSpaceCh) with
                | none => none
                | some r6 =>
                  if requireNl && !((r6.takeWhile isSpaceCh).contains '\n') then none
                  else
                    match litp [('"')] (r6.dropWhile isSpaceCh) with
                    | none => none
                    | some r7 =>
                      match msgScan requireNl (if requireNl then closeSfx2 else closeSfx1) r7 with
                      | none => none
                      | some (body, rest) =>
                        some ((d, logLevelStr ++ wd, ('"') :: body ++ [('"')]), rest)

def stdTmplA : List Char := (("[LoggerMessage(\n        EventId = ").toList)

def stdTmplB : List Char := ((",\n        Level = Microsoft.Extensions.Logging.").toList)

def stdTmplC : List Char := ((",\n        Message = ").toList)

def stdTmplD : List Char := (("\n    )]").toList)

/-- The f-string replacement used by both `replace_single_line` and
`replace_multi_line`. -/
def stdRepl (g : List Char × List Char × List Char) : List Char :=
  stdTmplA ++ g.1 ++ stdTmplB ++ g.2.1 ++ stdTmplC ++ g.2.2 ++ stdTmplD

/-- Fuel-driven `re.sub` for one standardization pattern. -/
def subStdGo (requireNl : Bool) : Nat → List Char → List Char
  | 0, s => s
  | _ + 1, [] => []
  | f + 1, c :: rest =>
    match tryMatchStd requireNl (c :: rest) with
    | some (g, r) => stdRepl g ++ subStdGo requireNl f r
    | none => c :: subStdGo requireNl f rest

/-- `standardize_loggermessage_format`: single-line pattern first, then the
multi-line pattern on the result. -/
def standardizeContent (s : List Char) : List Char :=
  let s1 := subStdGo false s.length s
  subStdGo true s1.length s1

/-! ### File classifiers and category bases -/

def anyKw (p : List Char) (kws : List String) : Bool :=
  kws.any (fun k => containsSub (k.toList) p)

/-- `categorize_file` of `organize_eventids.py`. -/
def orgCategorize (p : List Char) : String :=
  if anyKw p [("Audio"), ("Media"), ("LibVLC"), ("Player")] then ("Audio")
  else if anyKw p [("KNX"), ("Knx")] then ("KNX")
  else if anyKw p [("MQTT"), ("Mqtt")] then ("MQTT")
  else if anyKw p [("Api/"), ("Controller"), ("Health")] then ("Web")
  else if anyKw p [("Performance"), ("Metrics")] then ("Performance")
  else if anyKw p [("Notification"), ("Publisher"), ("Handler")] then ("Notifications")
  else if anyKw p [("Infrastructure"), ("Integration"), ("Service"), ("Storage")] then ("Infrastructure")
  else ("Core")

/-- `get_category_base` of `organize_eventids.py`: a direct dictionary
index, i.e. a lookup with no default. -/
def orgCategoryBase (cat : String) : Option Nat :=
  List.lookup cat
    [(("Core"), 1000), (("Audio"), 2000), (("KNX"), 3000), (("MQTT"), 4000),
     (("Web"), 5000), (("Infrastructure"), 6000), (("Performance"), 8000),
     (("Notifications"), 10000)]

/-- `categorize_file` of `reorganize_eventids.py`. -/
def reorgCategorize (p : List Char) : String :=
  if anyKw p [("Audio"), ("Media"), ("Snapcast"), ("LibVLC"), ("Player"), ("Sound")] then ("Audio")
  else if anyKw p [("KNX"), ("Knx"), ("Building"), ("Automation")] then ("KNX")
  else if anyKw p [("MQTT"), ("Mqtt"), ("Message"), ("Broker"), ("Topic")] then ("MQTT")
  else if anyKw p [("Web"), ("Http"), ("API"), ("Controller"), ("Endpoint")] then ("Web")
  else if anyKw p [("Infrastructure"), ("Host"), ("Extension"), ("Service"), ("Integration")] then ("Infrastructure")
  else if anyKw p [("Performance"), ("Metrics"), ("Monitor"), ("Stats")] then ("Performance")
  else if anyKw p [("Notification"), ("Event"), ("Handler"), ("Publisher")] then ("Notifications")
  else if anyKw p [("Test"), ("Mock"), ("Fake"), ("Stub")] then ("Testing")
  else ("Core")

/-- `get_category_base` of `reorganize_eventids.py`: `bases.get(category, 1000)`. -/
def reorgCategoryBase (cat : String) : Nat :=
  (List.lookup cat
    [(("Core"), 1000), (("Audio"), 2000), (("KNX"), 3000), (("MQTT"), 4000),
     (("Web"), 5000), (("Infrastructure"), 6000), (("Performance"), 7000),
     (("Notifications"), 8000), (("Testing"), 9000)]).getD 1000

/-! ### File trees, selection and deterministic ordering

A file tree is a list of (path, content) pairs, both as character lists. -/

def csStr : List Char := ((".cs").toList)

def objStr : List Char := (("obj").toList)

def testsStr : List Char := (("Tests").toList)

def lmStr : List Char := (("LoggerMessage").toList)

/-- The `rglob("*.cs")` + exclusion + `"LoggerMessage" in content` filter
shared by both scripts. -/
def isCsCandidate (p c : List Char) : Bool :=
  csStr.isSuffixOf p && !(containsSub objStr p) && !(containsSub testsStr p) &&
    containsSub lmStr c

/-- Lexicographic path order used for `sorted(cs_files)`. -/
def lexLe : List Char → List Char → Bool
  | [], _ => true
  | _ :: _, [] => false
  | a :: as, b :: bs => if a == b then lexLe as bs else decide (a < b)

def sortPairs (l : List (List Char × List Char)) : List (List Char × List Char) :=
  List.insertionSort (fun x y => lexLe x.1 y.1 = true) l

/-! ### Association-list helpers (Python `dict`) -/

def assocSet {B : Type} : List (String × B) → String → B → List (String × B)
  | [], k, v => [(k, v)]
  | (k1, v1) :: t, k, v => if k1 == k then (k1, v) :: t else (k1, v1) :: assocSet t k v

def assocSetN {B : Type} : List (Nat × B) → Nat → B → List (Nat × B)
  | [], k, v => [(k, v)]
  | (k1, v1) :: t, k, v => if k1 == k then (k1, v) :: t else (k1, v1) :: assocSetN t k v

def assocGetD : List (Nat × Nat) → Nat → Nat → Nat
  | [], _, d => d
  | (k1, v1) :: t, k, d => if k1 == k then v1 else assocGetD t k d

/-! ### Lines -/

def splitNl : List Char → List (List Char)
  | [] => [[]]
  | c :: rest =>
    if c == '\n' then [] :: splitNl rest
    else
      match splitNl rest with
      | [] => [[c]]
      | l :: ls => (c :: l) :: ls

def joinNl (ls : List (List Char)) : List Char := List.intercalate [('\n')] ls

/-! ### `organize_eventids.py` main pipeline -/

/-- Per-line extraction loop of `organize_eventids.py` (lines 99-103):
pairs of (line number, value of the line's first `EventId = n` match). -/
def orgExtractLines (lines : List (List Char)) : List (Nat × Nat) :=
  lines.enum.filterMap (fun il => (searchEventIdNum il.2).map (fun v => (il.1, v)))

/-- The dictionary comprehension
`{old_id: file_base + i for i, (_, old_id) in enumerate(eventids_in_file)}`:
document order, a duplicate old value keeps its first dictionary position
but receives the index of its last occurrence. -/
def orgNewIds (fileBase : Nat) (evs : List (Nat × Nat)) : List (Nat × Nat) :=
  evs.enum.foldl (fun d ie => assocSetN d ie.2.2 (fileBase + ie.1)) []

/-- Per-file processing of `organize_eventids.py` (lines 95-124): returns
the new content and whether the file was written. -/
def orgProcessFile (fileBase : Nat) (content : List Char) : List Char × Bool :=
  let lines := splitNl content
  let evs := orgExtractLines lines
  if evs.isEmpty then (content, false)
  else
    let d := orgNewIds fileBase evs
    if d.any (fun oe => !(oe.1 == oe.2)) then
      let lines2 := evs.foldl
        (fun ls lv => ls.set lv.1 (reSubEventId lv.2 (assocGetD d lv.2 0) (ls.getD lv.1 []))) lines
      (joinNl lines2, true)
    else (content, false)

/-- File-index assignment of `organize_eventids.py` (lines 68-83): every
selected file gets `file_base = category_base + file_index * 100`, indices
counted per category over the sorted file list. -/
def orgAssignGo : List (String × Nat) → List (List Char × List Char) → List (List Char × Nat)
  | _, [] => []
  | counters, (p, _) :: rest =>
    let cat := orgCategorize p
    let idx := (List.lookup cat counters).getD 0
    ((p, (orgCategoryBase cat).getD 0 + idx * 100)) ::
      orgAssignGo (assocSet counters cat (idx + 1)) rest

def orgAssignments (sel : List (List Char × List Char)) : List (List Char × Nat) :=
  orgAssignGo [] sel

/-- The duplicate-detection loop of the verification pass (lines 147-159):
`seen` accumulates values, repeats are appended to the duplicate list. -/
def verifyDupsGo : List Nat → List Nat → List Nat → List Nat
  | _, dups, [] => dups
  | seen, dups, x :: xs =>
    verifyDupsGo (if seen.contains x then seen else x :: seen)
      (if seen.contains x then dups ++ [x] else dups) xs

/-- All `EventId = n` occurrence values re-extracted across file contents. -/
def orgVerifyIds (contents : List (List Char)) : List Nat :=
  (contents.map findAllNums).flatten

def orgVerifyDups (contents : List (List Char)) : List Nat :=
  verifyDupsGo [] [] (orgVerifyIds contents)

/-- Exit code of `organize_eventids.py`'s `main`: 1 when the duplicate
list is non-empty, else 0. -/
def orgVerifyExit (contents : List (List Char)) : Nat :=
  if (orgVerifyDups contents).isEmpty then 0 else 1

structure OrgResult where
  files : List (List Char × List Char)
  written : List (List Char)
  exit : Nat

/-- Full run of `organize_eventids.py` on a file tree. -/
def organizeRun (tree : List (List Char × List Char)) : OrgResult :=
  let sel := sortPairs (tree.filter (fun pc => isCsCandidate pc.1 pc.2))
  let asg := orgAssignments sel
  let processed := sel.map (fun pc =>
    let r := orgProcessFile ((List.lookup pc.1 asg).getD 0) pc.2
    (pc.1, r))
  let files := tree.map (fun pc =>
    if isCsCandidate pc.1 pc.2 then
      match List.lookup pc.1 (processed.map (fun t => (t.1, t.2.1))) with
      | some c2 => (pc.1, c2)
      | none => pc
    else pc)
  ⟨files, (processed.filter (fun t => t.2.2)).map (fun t => t.1),
    orgVerifyExit (processed.map (fun t => t.2.1))⟩

/-! ### `reorganize_eventids.py` main pipeline -/

/-- Phase 1 (lines 226-240): standardize every selected file that has a
positional `LoggerMessage` pattern. -/
def reorganizePhase1 (tree : List (List Char × List Char)) : List (List Char × List Char) :=
  tree.map (fun pc =>
    if isCsCandidate pc.1 pc.2 && hasPositionalFormat pc.2 then
      (pc.1, standardizeContent pc.2)
    else pc)

/-- Paths whose content phase 1 actually changed (files written by phase 1). -/
def reorganizeP1Written (tree : List (List Char × List Char)) : List (List Char) :=
  (tree.filter (fun pc =>
    isCsCandidate pc.1 pc.2 && hasPositionalFormat pc.2 &&
      !(standardizeContent pc.2 == pc.2))).map (fun pc => pc.1)

/-- `file_data` construction (lines 251-264): category, sorted extracted
ids and per-category file index, only for files with identifiers. -/
def reorgFileDataGo : List (String × Nat) → List (List Char × List Char) →
    List (List Char × String × List Nat × Nat)
  | _, [] => []
  | counters, (p, c) :: rest =>
    let cat := reorgCategorize p
    let ids := extractEventIds c
    if ids.isEmpty then reorgFileDataGo counters rest
    else
      let idx := (List.lookup cat counters).getD 0
      (p, cat, List.insertionSort (· ≤ ·) ids, idx) ::
        reorgFileDataGo (assocSet counters cat (idx + 1)) rest

/-- `new_id = new_base + i` over `enumerate(old_eventids)` (lines 281-282). -/
def assignNew (newBase : Nat) (ids : List Nat) : List (Nat × Nat) :=
  ids.enum.map (fun io => (io.2, newBase + io.1))

/-- The change table (lines 272-289): per file, the non-fixed entries of the
assignment; files with no non-fixed entry are left out. -/
def reorgChanges (fd : List (List Char × String × List Nat × Nat)) :
    List (List Char × List (Nat × Nat)) :=
  fd.filterMap (fun r =>
    let reps := (assignNew (reorgCategoryBase r.2.1 + r.2.2.2 * 100) r.2.2.1).filter
      (fun oe => !(oe.1 == oe.2))
    if reps.isEmpty then none else some (r.1, reps))

/-- `replace_eventids` (lines 175-190): one whole-content `re.sub` per
replacement pair, applied sequentially in dictionary order. -/
def applyReps (reps : List (Nat × Nat)) (c : List Char) : List Char :=
  reps.foldl (fun c2 oe => reSubEventId oe.1 oe.2 c2) c

/-- `response.strip().lower()` on the confirmation answer. -/
def normAnswer (a : List Char) : List Char :=
  (((a.dropWhile isSpaceCh).reverse.dropWhile isSpaceCh).reverse).map Char.toLower

def yStr : List Char := (("y").toList)

structure ReorgResult where
  files : List (List Char × List Char)
  p1written : List (List Char)
  p2written : List (List Char)
  exit : Nat

/-- Phase-2 re-scan: the sorted selected paths paired with their current
(post-phase-1) contents. -/
def reorgSelPairs (tree : List (List Char × List Char)) : List (List Char × List Char) :=
  ((sortPairs (tree.filter (fun pc => isCsCandidate pc.1 pc.2))).map (fun pc => pc.1)).filterMap
    (fun p => (List.lookup p (reorganizePhase1 tree)).map (fun c => (p, c)))

def reorgFileData (tree : List (List Char × List Char)) :
    List (List Char × String × List Nat × Nat) :=
  reorgFileDataGo [] (reorgSelPairs tree)

def reorgChangesOf (tree : List (List Char × List Char)) :
    List (List Char × List (Nat × Nat)) :=
  reorgChanges (reorgFileData tree)

/-- Full run of `reorganize_eventids.py` on a file tree, with the text the
user types at the confirmation prompt. -/
def reorganizeRun (answer : List Char) (tree : List (List Char × List Char)) : ReorgResult :=
  let tree1 := reorganizePhase1 tree
  let changes := reorgChangesOf tree
  if changes.isEmpty then ⟨tree1, reorganizeP1Written tree, [], 0⟩
  else if normAnswer answer == yStr then
    ⟨tree1.map (fun pc =>
        match List.lookup pc.1 changes with
        | some reps => (pc.1, applyReps reps pc.2)
        | none => pc),
      reorganizeP1Written tree, changes.map (fun pr => pr.1), 0⟩
  else ⟨tree1, reorganizeP1Written tree, [], 0⟩

/-! ## Concrete input trees used by counterexamples, failing-input
evaluations and witnesses -/

/-- Eleven Core-classified files followed by one Audio-classified file,
each holding a single identifier. -/
def c1tree : List (List Char × List Char) :=
  [("Aa.cs"), ("Ab.cs"), ("Ac.cs"), ("Ad.cs"), ("Ae.cs"), ("Af.cs"),
   ("Ag.cs"), ("Ah.cs"), ("Ai.cs"), ("Aj.cs"), ("Ak.cs"), ("Audio.cs")].map
    (fun n => (n.toList, (("// LoggerMessage\nEventId = 7").toList)))

/-- A file with 101 distinct identifiers (2..102) followed by a one-identifier
file of the same category. -/
def c3tree : List (List Char × List Char) :=
  [((("A.cs").toList),
    (("// LoggerMessage\n").toList) ++
      joinNl ((List.range 101).map (fun k => (("EventId = ").toList) ++ natDigits (k + 2)))),
   ((("B.cs").toList), (("// LoggerMessage\nEventId = 7").toList))]

/-- One file whose identifier set {5, 1000} contains the value 1000 that the
allocator will also assign to the identifier 5. -/
def c4tree : List (List Char × List Char) :=
  [((("A.cs").toList), (("// LoggerMessage\nEventId = 5\nEventId = 1000").toList))]

/-- One file in single-line positional format. -/
def c5tree : List (List Char × List Char) :=
  [((("A.cs").toList),
    (("[LoggerMessage(5, LogLevel.Information, \x22S\x22)]").toList))]

/-- One already-correct file: its single identifier equals its assigned value. -/
def c8tree : List (List Char × List Char) :=
  [((("A.cs").toList), (("// LoggerMessage\nEventId = 1000").toList))]

/-! ### Specification-side notions used by the theorems -/

/-- Values that occur at more than one place in the occurrence list. -/
def dupValues (xs : List Nat) : List Nat :=
  xs.dedup.filter (fun v => decide (1 < xs.count v))

/-- Maximal digit runs of a text; `cur` holds the reversed run in progress. -/
def runsGo : Option (List Char) → List Char → List (List Char)
  | cur, [] =>
    (match cur with
     | none => []
     | some r => [r.reverse])
  | cur, c :: rest =>
    if isDigitCh c then runsGo (some (c :: cur.getD [])) rest
    else
      match cur with
      | none => runsGo none rest
      | some r => r.reverse :: runsGo none rest

def parseRuns (s : List Char) : List (List Char) := runsGo none s

/-- Number of maximal digit runs of `s` equal to `w`. -/
def numRuns (w s : List Char) : Nat := (parseRuns s).count w

/-! ## Supporting lemmas -/

theorem litp_some {p s r : List Char} (h : litp p s = some r) : s = p ++ r := by
  induction p generalizing s with
  | nil => simp [litp] at h; simp [h]
  | cons a p ih =>
    cases s with
    | nil => simp [litp] at h
    | cons c cs =>
      by_cases hac : (a == c) = true
      · simp only [litp, hac, if_true] at h
        have hcs := ih h
        have hac2 : a = c := beq_iff_eq.mp hac
        subst hac2
        simp [List.cons_append, hcs]
      · simp [litp, hac] at h

theorem space_not_digit {c : Char} (h : isSpaceCh c = true) : isDigitCh c = false := by
  simp only [isSpaceCh, Bool.or_eq_true, beq_iff_eq] at h
  rcases h with ((((h | h) | h) | h) | h) | h <;> subst h <;> decide

theorem word_of_digit {c : Char} (h : isDigitCh c = true) : isWordCh c = true := by
  simp [isWordCh, h]

theorem headNonDigit_of_headNonWord {r : List Char} (h : headNonWord r = true) :
    headNonDigit r = true := by
  cases r with
  | nil => rfl
  | cons c t =>
    simp only [headNonWord, Bool.not_eq_true'] at h
    simp only [headNonDigit, Bool.not_eq_true']
    cases hd : isDigitCh c with
    | false => rfl
    | true => simp [word_of_digit hd] at h

theorem digitChar_digit {n : Nat} (h : n < 10) : isDigitCh (digitChar n) = true := by
  interval_cases n <;> decide

theorem natDigitsAux_all_digit :
    ∀ f n, ∀ c ∈ natDigitsAux f n, isDigitCh c = true := by
  intro f
  induction f with
  | zero => intro n c hc; simp [natDigitsAux] at hc
  | succ f ih =>
    intro n c hc
    by_cases h10 : n < 10
    · simp only [natDigitsAux, if_pos h10, List.mem_singleton] at hc
      subst hc; exact digitChar_digit h10
    · simp only [natDigitsAux, if_neg h10, List.mem_append, List.mem_singleton] at hc
      rcases hc with hc | hc
      · exact ih _ _ hc
      · subst hc; exact digitChar_digit (Nat.mod_lt _ (by omega))

theorem natDigits_all_digit (n : Nat) : ∀ c ∈ natDigits n, isDigitCh c = true :=
  natDigitsAux_all_digit (n + 1) n

theorem natDigits_ne_nil (n : Nat) : natDigits n ≠ [] := by
  unfold natDigits natDigitsAux
  by_cases h10 : n < 10 <;> simp [h10]

/-! ## C10: the organize classifier is total for the base table -/

/-- C10: for every file path, the category computed by
`organize_eventids.py`'s `categorize_file` is a key of the dictionary in
`get_category_base`, so the unguarded dictionary index never raises. -/
theorem claim_c10_classifier_total (p : List Char) :
    (orgCategoryBase (orgCategorize p)).isSome = true := by
  unfold orgCategorize
  split_ifs <;> decide

/-! ## C6: verifier exit code versus the collision set -/

theorem verifyDupsGo_append (seen d : List Nat) (xs : List Nat) :
    verifyDupsGo seen d xs = d ++ verifyDupsGo seen [] xs := by
  induction xs generalizing seen d with
  | nil => simp [verifyDupsGo]
  | cons x xs ih =>
    by_cases h : seen.contains x = true
    · simp only [verifyDupsGo, h, if_true, List.nil_append]
      rw [ih seen (d ++ [x]), ih seen [x]]
      simp
    · simp only [verifyDupsGo, h]
      simp only [Bool.false_eq_true, if_false]
      rw [ih]

theorem verifyDupsGo_nil_iff (xs : List Nat) :
    ∀ seen, verifyDupsGo seen [] xs = [] ↔ xs.Nodup ∧ ∀ x ∈ xs, x ∉ seen := by
  induction xs with
  | nil => intro seen; simp [verifyDupsGo]
  | cons x xs ih =>
    intro seen
    by_cases h : seen.contains x = true
    · have hx : x ∈ seen := by simpa using h
      simp only [verifyDupsGo, h, if_true]
      rw [verifyDupsGo_append]
      constructor
      · intro hc; simp at hc
      · rintro ⟨-, hall⟩
        exact absurd hx (hall x (by simp))
    · have hx : x ∉ seen := by simpa using h
      simp only [verifyDupsGo, h]
      simp only [Bool.false_eq_true, if_false]
      rw [ih (x :: seen)]
      constructor
      · rintro ⟨hnd, hall⟩
        refine ⟨List.nodup_cons.mpr
          ⟨fun hmem => absurd (List.mem_cons_self x seen) (hall x hmem), hnd⟩, ?_⟩
        intro y hmem
        rcases List.mem_cons.mp hmem with rfl | hys
        · exact hx
        · intro hsy
          exact hall y hys (List.mem_cons_of_mem x hsy)
      · rintro ⟨hnd, hall⟩
        refine ⟨hnd.of_cons, ?_⟩
        intro y hy hmem
        rcases List.mem_cons.mp hmem with rfl | hys
        · exact (List.nodup_cons.mp hnd).1 hy
        · exact hall y (List.mem_cons_of_mem x hy) hys

theorem orgVerifyDups_nil_iff (contents : List (List Char)) :
    orgVerifyDups contents = [] ↔ (orgVerifyIds contents).Nodup := by
  unfold orgVerifyDups
  rw [verifyDupsGo_nil_iff]
  simp

/-- C6: the verification pass of `organize_eventids.py` re-extracts the
identifier occurrences from the (post-rewrite) file contents, and the run's
exit status is non-zero exactly when some identifier value occurs at more
than one place across all files. -/
theorem claim_c6_verifier_exit (contents : List (List Char)) :
    orgVerifyExit contents ≠ 0 ↔ dupValues (orgVerifyIds contents) ≠ [] := by
  unfold orgVerifyExit
  constructor
  · intro h
    have hne : orgVerifyDups contents ≠ [] := by
      intro hnil; simp [hnil] at h
    have hnodup : ¬ (orgVerifyIds contents).Nodup := by
      intro hnd; exact hne ((orgVerifyDups_nil_iff contents).mpr hnd)
    rw [List.nodup_iff_count_le_one] at hnodup
    push_neg at hnodup
    obtain ⟨v, hv⟩ := hnodup
    have hvmem : v ∈ orgVerifyIds contents := by
      rw [← List.count_pos_iff]; omega
    intro hnil
    have : v ∈ dupValues (orgVerifyIds contents) := by
      unfold dupValues
      rw [List.mem_filter]
      exact ⟨List.mem_dedup.mpr hvmem, by simpa using hv⟩
    simp [hnil] at this
  · intro h
    obtain ⟨v, hv⟩ := List.exists_mem_of_ne_nil _ h
    unfold dupValues at hv
    rw [List.mem_filter] at hv
    have hcnt : 1 < (orgVerifyIds contents).count v := by simpa using hv.2
    have hnodup : ¬ (orgVerifyIds contents).Nodup := by
      rw [List.nodup_iff_count_le_one]
      push_neg
      exact ⟨v, hcnt⟩
    have hne : orgVerifyDups contents ≠ [] := by
      intro hnil; exact hnodup ((orgVerifyDups_nil_iff contents).mp hnil)
    simp [List.isEmpty_iff, hne]

/-! ## C9: the extractor returns the sorted set of distinct values of all
three recognized forms -/

/-- C9: for every file text, `extract_eventids` returns a strictly sorted
(hence duplicate-free) list whose members are exactly the values matched by
the named-field pattern, the single-line positional pattern or the
multi-line positional pattern — all three forms may appear in one file. -/
theorem claim_c9_extractor_sorted_distinct (s : List Char) :
    (extractEventIds s).Sorted (· < ·) ∧
    ∀ v, v ∈ extractEventIds s ↔
      (v ∈ findAllNums s ∨ v ∈ findAllGo tryMatchSingle s.length s ∨
        v ∈ findAllGo tryMatchMulti s.length s) := by
  constructor
  · have hs : (extractEventIds s).Sorted (· ≤ ·) := List.sorted_insertionSort _ _
    have hnd : (extractEventIds s).Nodup := by
      unfold extractEventIds
      exact ((List.perm_insertionSort _ _).nodup_iff).mpr (List.nodup_dedup _)
    exact hs.lt_of_le hnd
  · intro v
    unfold extractEventIds
    rw [List.mem_insertionSort, List.mem_dedup]
    simp [List.mem_append, or_assoc]

/-! ## C2: the per-file assignment formula -/

theorem assocGetD_assocSetN_same (d : List (Nat × Nat)) (k v dft : Nat) :
    assocGetD (assocSetN d k v) k dft = v := by
  induction d with
  | nil => simp [assocSetN, assocGetD]
  | cons kv t ih =>
    cases kv with
    | mk k1 v1 =>
      by_cases hk : (k1 == k) = true
      · simp [assocSetN, hk, assocGetD]
      · simp [assocSetN, hk, assocGetD, ih]

theorem assocGetD_assocSetN_other (d : List (Nat × Nat)) {k k2 : Nat} (v dft : Nat)
    (hne : k2 ≠ k) : assocGetD (assocSetN d k v) k2 dft = assocGetD d k2 dft := by
  have hkk2 : (k == k2) = false := by simpa using Ne.symm hne
  induction d with
  | nil => simp [assocSetN, assocGetD, hkk2]
  | cons kv t ih =>
    cases kv with
    | mk k1 v1 =>
      by_cases hk : (k1 == k) = true
      · have hk1 : k1 = k := beq_iff_eq.mp hk
        have h12 : (k1 == k2) = false := by rw [hk1]; exact hkk2
        simp [assocSetN, hk, assocGetD, h12]
      · by_cases h12 : (k1 == k2) = true
        · simp [assocSetN, hk, assocGetD, h12]
        · simp [assocSetN, hk, assocGetD, h12, ih]

/-- Folding the dictionary updates over entries whose values never include
`v` leaves the lookup of `v` unchanged. -/
theorem orgNewIds_fold_not_mem (fb : Nat) :
    ∀ (evs : List (Nat × Nat)) (n : Nat) (acc : List (Nat × Nat)) (v dft : Nat),
      v ∉ evs.map Prod.snd →
      assocGetD (List.foldl (fun d ie => assocSetN d ie.2.2 (fb + ie.1)) acc
        (List.enumFrom n evs)) v dft = assocGetD acc v dft := by
  intro evs
  induction evs with
  | nil => intro n acc v dft _; simp [List.enumFrom]
  | cons lv evs ih =>
    intro n acc v dft hv
    cases lv with
    | mk ln u =>
      simp only [List.map_cons, List.mem_cons] at hv
      push_neg at hv
      simp only [List.enumFrom, List.foldl_cons]
      rw [ih (n + 1) _ v dft hv.2]
      exact assocGetD_assocSetN_other acc (fb + n) dft hv.1

/-- The dictionary comprehension maps a value to `fb + i` where `i` is the
index of the value's **last** occurrence in the document-order entry list
(later updates overwrite earlier ones, as for a Python dict). -/
theorem orgNewIds_fold_last (fb : Nat) :
    ∀ (evs : List (Nat × Nat)) (n : Nat) (acc : List (Nat × Nat)) (i ln v : Nat),
      evs.get? i = some (ln, v) →
      v ∉ (evs.drop (i + 1)).map Prod.snd →
      assocGetD (List.foldl (fun d ie => assocSetN d ie.2.2 (fb + ie.1)) acc
        (List.enumFrom n evs)) v 0 = fb + (n + i) := by
  intro evs
  induction evs with
  | nil => intro n acc i ln v h _; simp at h
  | cons lv evs ih =>
    intro n acc i ln v hget hlast
    cases lv with
    | mk ln0 u =>
      cases i with
      | zero =>
        rw [List.get?_cons_zero] at hget
        have hpair := Option.some.inj hget
        have hu : u = v := congrArg Prod.snd hpair
        have hlast2 : v ∉ evs.map Prod.snd := by simpa using hlast
        simp only [List.enumFrom, List.foldl_cons]
        rw [orgNewIds_fold_not_mem fb evs (n + 1) _ v 0 hlast2, hu,
          assocGetD_assocSetN_same]
        omega
      | succ i =>
        have hget2 : evs.get? i = some (ln, v) := by simpa using hget
        have hlast2 : v ∉ (evs.drop (i + 1)).map Prod.snd := by
          simpa [List.drop_succ_cons] using hlast
        simp only [List.enumFrom, List.foldl_cons]
        rw [ih (n + 1) _ i ln v hget2 hlast2]
        omega

/-- C2 counterexample: `organize_eventids.py` does not assign by the rank in
the sorted distinct identifier list.  For a Core file (base 1000, index 0)
whose lines carry identifiers 9 then 5, the sorted distinct list is [5, 9],
so the claimed formula gives 5 ↦ 1000 + 0; the script instead assigns in
document order, mapping 5 ↦ 1001. -/
theorem claim_c2_counterexample :
    extractEventIds (("// LoggerMessage\nEventId = 9\nEventId = 5").toList) = [5, 9] ∧
    assocGetD (orgNewIds 1000 (orgExtractLines
      (splitNl (("// LoggerMessage\nEventId = 9\nEventId = 5").toList)))) 5 0 = 1001 ∧
    ¬ (assocGetD (orgNewIds 1000 (orgExtractLines
      (splitNl (("// LoggerMessage\nEventId = 9\nEventId = 5").toList)))) 5 0 = 1000 + 0) := by
  decide

/-- C2 amended: in `reorganize_eventids.py` the r-th identifier of a file's
(sorted distinct) extracted list is assigned
`category_base + file_index * 100 + r`; in `organize_eventids.py`
identifiers are instead assigned `file_base + i` in document (line) order,
and a duplicated value keeps only the index `i` of its last occurrence:
whenever position `i` of the extracted (line, value) list holds `v` and `v`
does not occur at any later position, the dictionary maps `v` to
`file_base + i`. -/
theorem claim_c2_assignment_formula :
    (∀ (cat : String) (idx : Nat) (ids : List Nat) (r : Nat),
      (assignNew (reorgCategoryBase cat + idx * 100) ids).get? r =
        (ids.get? r).map (fun o => (o, reorgCategoryBase cat + idx * 100 + r))) ∧
    (∀ (fb : Nat) (evs : List (Nat × Nat)) (i ln v : Nat),
      evs.get? i = some (ln, v) →
      v ∉ (evs.drop (i + 1)).map Prod.snd →
      assocGetD (orgNewIds fb evs) v 0 = fb + i) := by
  constructor
  · intro cat idx ids r
    unfold assignNew
    rw [List.get?_map, List.get?_enum]
    cases ids.get? r <;> rfl
  · intro fb evs i ln v hget hlast
    unfold orgNewIds
    rw [List.enum_eq_enumFrom]
    have h := orgNewIds_fold_last fb evs 0 [] i ln v hget hlast
    simpa using h

/-- Closed instance of `claim_c2_assignment_formula`: the reorganize formula
at rank 0, and the organize document-order rule on a list in which the value
5 occurs at positions 0 and 2 — the duplicated value keeps the index of its
last occurrence, mapping to 1000 + 2. -/
theorem claim_c2_assignment_formula_witness :
    (assignNew (reorgCategoryBase ("Core") + 0 * 100) [5, 9]).get? 0 =
      some (5, reorgCategoryBase ("Core") + 0 * 100 + 0) ∧
    assocGetD (orgNewIds 1000 [(0, 5), (1, 9), (2, 5)]) 5 0 = 1000 + 2 :=
  ⟨claim_c2_assignment_formula.1 ("Core") 0 [5, 9] 0,
   claim_c2_assignment_formula.2 1000 [(0, 5), (1, 9), (2, 5)] 2 2 5
     (by decide) (by decide)⟩

/-! ## C8: files whose assignment is the identity are not rewritten -/

theorem lookup_none_of_not_mem {B : Type} {l : List (List Char × B)} {p : List Char}
    (h : p ∉ l.map Prod.fst) : List.lookup p l = none := by
  induction l with
  | nil => rfl
  | cons kv t ih =>
    simp only [List.map_cons, List.mem_cons] at h
    push_neg at h
    cases kv with
    | mk k v =>
      have hk : (p == k) = false := by simpa using h.1
      simp only [List.lookup, hk]
      exact ih h.2

theorem mem_reorgChanges_keys {fd : List (List Char × String × List Nat × Nat)}
    {p : List Char} (h : p ∈ (reorgChanges fd).map Prod.fst) :
    ∃ rec ∈ fd, rec.1 = p ∧
      ((assignNew (reorgCategoryBase rec.2.1 + rec.2.2.2 * 100) rec.2.2.1).filter
        (fun oe => !(oe.1 == oe.2))) ≠ [] := by
  rw [List.mem_map] at h
  obtain ⟨pr, hpr, hfst⟩ := h
  unfold reorgChanges at hpr
  rw [List.mem_filterMap] at hpr
  obtain ⟨rec, hrec, heq⟩ := hpr
  dsimp only at heq
  by_cases he : ((assignNew (reorgCategoryBase rec.2.1 + rec.2.2.2 * 100) rec.2.2.1).filter
      (fun oe => !(oe.1 == oe.2))).isEmpty = true
  · rw [if_pos he] at heq
    cases heq
  · rw [if_neg he] at heq
    have hpr := Option.some.inj heq
    refine ⟨rec, hrec, ?_, ?_⟩
    · rw [← hfst, ← hpr]
    · intro hnil
      rw [List.isEmpty_iff] at he
      exact he hnil

theorem filter_path_map {g : (List Char × List Char) → (List Char × List Char)} {p : List Char}
    (hfst : ∀ pc, (g pc).1 = pc.1) (hfix : ∀ pc, pc.1 = p → g pc = pc) :
    ∀ l : List (List Char × List Char),
      (l.map g).filter (fun pc => pc.1 == p) = l.filter (fun pc => pc.1 == p) := by
  intro l
  induction l with
  | nil => rfl
  | cons pc t ih =>
    by_cases hp : (pc.1 == p) = true
    · have hgp : ((g pc).1 == p) = true := by rw [hfst]; exact hp
      simp only [List.map_cons, List.filter_cons, hgp, hp, if_true]
      rw [hfix pc (beq_iff_eq.mp hp), ih]
    · have hgp : ((g pc).1 == p) = false := by
        rw [hfst]
        simpa using hp
      simp only [List.map_cons, List.filter_cons, hgp, hp]
      simp only [Bool.false_eq_true, if_false]
      exact ih

/-- C8: a file whose computed assignment maps every old identifier to itself
is not written by the rewriter.  For `reorganize_eventids.py`: such a file is
left out of the change table, so phase 2 never touches it (its entries keep
their phase-1 content).  For `organize_eventids.py`: `orgProcessFile` leaves
the content unchanged and reports the file as not written. -/
theorem claim_c8_noop_files_not_written :
    (∀ (tree : List (List Char × List Char)) (answer : List Char) (p : List Char),
      (∀ rec ∈ reorgFileData tree, rec.1 = p →
        (assignNew (reorgCategoryBase rec.2.1 + rec.2.2.2 * 100) rec.2.2.1).all
          (fun oe => oe.1 == oe.2) = true) →
      p ∉ (reorganizeRun answer tree).p2written ∧
      ((reorganizeRun answer tree).files.filter (fun pc => pc.1 == p)) =
        ((reorganizePhase1 tree).filter (fun pc => pc.1 == p))) ∧
    (∀ (fb : Nat) (c : List Char),
      (orgNewIds fb (orgExtractLines (splitNl c))).all (fun oe => oe.1 == oe.2) = true →
      orgProcessFile fb c = (c, false)) := by
  constructor
  · intro tree answer p hall
    have hkey : p ∉ (reorgChangesOf tree).map Prod.fst := by
      intro hp
      obtain ⟨rec, hrec, hrp, hne⟩ := mem_reorgChanges_keys hp
      apply hne
      rw [List.filter_eq_nil_iff]
      intro oe hoe
      have := List.all_eq_true.mp (hall rec hrec hrp) oe hoe
      simp [this]
    unfold reorganizeRun
    dsimp only
    by_cases h1 : (reorgChangesOf tree).isEmpty = true
    · rw [if_pos h1]
      exact ⟨by simp, rfl⟩
    · rw [if_neg h1]
      by_cases h2 : (normAnswer answer == yStr) = true
      · rw [if_pos h2]
        constructor
        · simpa using hkey
        · refine filter_path_map ?_ ?_ _
          · intro pc
            cases hl : List.lookup pc.1 (reorgChangesOf tree) <;> simp [hl]
          · intro pc hpc
            have hln : List.lookup pc.1 (reorgChangesOf tree) = none := by
              rw [hpc]
              exact lookup_none_of_not_mem hkey
            simp [hln]
      · rw [if_neg h2]
        exact ⟨by simp, rfl⟩
  · intro fb c hall
    unfold orgProcessFile
    by_cases hevs : (orgExtractLines (splitNl c)).isEmpty = true
    · simp [hevs]
    · have hany : (orgNewIds fb (orgExtractLines (splitNl c))).any
          (fun oe => !(oe.1 == oe.2)) = false := by
        rw [List.any_eq_false]
        intro oe hoe
        have := List.all_eq_true.mp hall oe hoe
        simp [this]
      simp [hevs, hany]

/-- Closed instance of `claim_c8_noop_files_not_written` on a file whose
single identifier 1000 is exactly the value the allocator assigns to it. -/
theorem claim_c8_noop_files_not_written_witness :
    ((("A.cs").toList) ∉ (reorganizeRun (("y").toList) c8tree).p2written ∧
      ((reorganizeRun (("y").toList) c8tree).files.filter
        (fun pc => pc.1 == (("A.cs").toList))) =
        ((reorganizePhase1 c8tree).filter (fun pc => pc.1 == (("A.cs").toList)))) ∧
    orgProcessFile 1000 (("// LoggerMessage\nEventId = 1000").toList) =
      ((("// LoggerMessage\nEventId = 1000").toList), false) :=
  ⟨claim_c8_noop_files_not_written.1 c8tree (("y").toList) (("A.cs").toList) (by decide),
   claim_c8_noop_files_not_written.2 1000 (("// LoggerMessage\nEventId = 1000").toList)
     (by decide)⟩

/-! ## C5: declining the confirmation prompt -/

set_option maxRecDepth 40000 in
/-- C5 counterexample: on a tree holding one positional-format file, a run
of `reorganize_eventids.py` in which the user answers "n" exits with status
0, yet the tree has been mutated — phase 1 standardized the file before the
prompt, so the phases preceding the prompt are not read-only. -/
theorem claim_c5_counterexample :
    (reorganizeRun (("n").toList) c5tree).exit = 0 ∧
    (reorganizeRun (("n").toList) c5tree).files ≠ c5tree := by
  decide

/-- C5 amended: declining the confirmation prompt terminates the run with
exit status 0 and applies no identifier renumbering — the resulting tree is
exactly the phase-1 output and phase 2 writes nothing — but phase-1 format
standardization may already have rewritten files before the prompt. -/
theorem claim_c5_decline_no_renumbering
    (tree : List (List Char × List Char)) (answer : List Char)
    (h : ¬ normAnswer answer = yStr) :
    (reorganizeRun answer tree).exit = 0 ∧
    (reorganizeRun answer tree).files = reorganizePhase1 tree ∧
    (reorganizeRun answer tree).p2written = [] := by
  unfold reorganizeRun
  dsimp only
  by_cases h1 : (reorgChangesOf tree).isEmpty = true
  · rw [if_pos h1]
    exact ⟨rfl, rfl, rfl⟩
  · rw [if_neg h1]
    have h2 : (normAnswer answer == yStr) = false := by simpa using h
    rw [h2]
    simp only [Bool.false_eq_true, if_false]
    simp

/-- Closed instance of `claim_c5_decline_no_renumbering` at the concrete
declined run. -/
theorem claim_c5_decline_no_renumbering_witness :
    (reorganizeRun (("no").toList) c5tree).exit = 0 ∧
    (reorganizeRun (("no").toList) c5tree).files = reorganizePhase1 c5tree ∧
    (reorganizeRun (("no").toList) c5tree).p2written = [] :=
  claim_c5_decline_no_renumbering c5tree (("no").toList) (by decide)

/-! ## C1, C3, C4: evaluations of the code at the failing inputs -/

set_option maxRecDepth 40000 in
/-- C1 failing input: eleven Core files give the eleventh the file base
1000 + 10·100 = 2000, which equals the Audio category's base, so the
eleventh Core file and the first Audio file both receive the value 2000.
After the full run of `organize_eventids.py` the value 2000 occurs at two
places (in two different files), and the run exits 1 — contradicting
global post-run uniqueness, and contradicting the script's own docstring
"Guarantees no duplicates". -/
theorem claim_c1_failing_eval :
    (organizeRun c1tree).exit = 1 ∧
    1 < (orgVerifyIds ((organizeRun c1tree).files.map (fun pc => pc.2))).count 2000 ∧
    containsSub (("EventId = 2000").toList)
      (((organizeRun c1tree).files.getD 10 ([], [])).2) = true ∧
    containsSub (("EventId = 2000").toList)
      (((organizeRun c1tree).files.getD 11 ([], [])).2) = true := by
  decide

set_option maxRecDepth 100000 in
set_option maxHeartbeats 1000000 in
/-- C3 failing input: a file with 101 distinct identifiers (more than the
100-wide per-file block).  Neither script checks the block size: the
allocator silently assigns the 101st identifier the next file's base
(1000 + 100 = 1100), both files are rewritten (no abort, written list
non-empty), the value 1100 ends up in both files and the verifier exits 1. -/
theorem claim_c3_failing_eval :
    (organizeRun c3tree).written = [(("A.cs").toList), (("B.cs").toList)] ∧
    (organizeRun c3tree).exit = 1 ∧
    containsSub (("EventId = 1100").toList) (((organizeRun c3tree).files.getD 0 ([], [])).2) = true ∧
    containsSub (("EventId = 1100").toList) (((organizeRun c3tree).files.getD 1 ([], [])).2) = true := by
  decide

set_option maxRecDepth 40000 in
/-- C4 failing input: a Core file with identifiers {5, 1000}.  The first
(accepted) run of `reorganize_eventids.py` maps 5 ↦ 1000 and 1000 ↦ 1001,
but `replace_eventids` applies the substitutions sequentially, so the
second substitution also rewrites the text just produced by the first:
both occurrences become 1001.  A second run then finds {1001}, reassigns
it to 1000 and rewrites the file again — the second run is not a no-op. -/
theorem claim_c4_failing_eval :
    (reorganizeRun (("y").toList) c4tree).files =
      [((("A.cs").toList), (("// LoggerMessage\nEventId = 1001\nEventId = 1001").toList))] ∧
    (reorganizeRun (("y").toList) ((reorganizeRun (("y").toList) c4tree).files)).p2written ≠ [] ∧
    (reorganizeRun (("y").toList) ((reorganizeRun (("y").toList) c4tree).files)).files ≠
      (reorganizeRun (("y").toList) c4tree).files := by
  decide

/-! ## C7: word-boundary replacement never alters other numbers

We split a text into its maximal digit runs and show that the substitution
`(EventId\s*=\s*){old}\b → \g<1>{new}` preserves every run other than the
decimal digit strings of `old` and `new` themselves: a longer number that
merely contains `old`'s digits can never be matched, because the matched
digits are preceded by `=`/whitespace and must be followed by a non-word
character. -/

theorem runsGo_none_cons_nonDigit {c : Char} {t : List Char} (h : isDigitCh c = false) :
    runsGo none (c :: t) = runsGo none t := by
  simp [runsGo, h]

theorem parseRuns_cons_nonDigit {c : Char} {t : List Char} (h : isDigitCh c = false) :
    parseRuns (c :: t) = parseRuns t :=
  runsGo_none_cons_nonDigit h

theorem parseRuns_append_nonDigit {g : List Char} (hg : ∀ c ∈ g, isDigitCh c = false) :
    ∀ s, parseRuns (g ++ s) = parseRuns s := by
  induction g with
  | nil => intro s; rfl
  | cons c g ih =>
    intro s
    rw [List.cons_append, parseRuns_cons_nonDigit (hg c (by simp))]
    exact ih (fun x hx => hg x (by simp [hx])) s

theorem runsGo_digits {d : List Char} (hd : ∀ c ∈ d, isDigitCh c = true) :
    ∀ (acc t : List Char),
      runsGo (some acc) (d ++ t) = runsGo (some (d.reverse ++ acc)) t := by
  induction d with
  | nil => intro acc t; simp
  | cons c d ih =>
    intro acc t
    have hc : isDigitCh c = true := hd c (by simp)
    rw [List.cons_append]
    show runsGo (some acc) (c :: (d ++ t)) = _
    simp only [runsGo, hc, if_true, Option.getD_some]
    rw [ih (fun x hx => hd x (by simp [hx])) (c :: acc) t]
    simp [List.append_assoc]

theorem runsGo_flush (acc : List Char) {t : List Char} (ht : headNonDigit t = true) :
    runsGo (some acc) t = acc.reverse :: runsGo none t := by
  cases t with
  | nil => rfl
  | cons c t =>
    simp only [headNonDigit, Bool.not_eq_true'] at ht
    simp [runsGo, ht]

theorem parseRuns_run {d t : List Char} (hne : d ≠ [])
    (hd : ∀ c ∈ d, isDigitCh c = true) (ht : headNonDigit t = true) :
    parseRuns (d ++ t) = d :: parseRuns t := by
  cases d with
  | nil => exact absurd rfl hne
  | cons c d =>
    have hc : isDigitCh c = true := hd c (by simp)
    unfold parseRuns
    rw [List.cons_append]
    show runsGo none (c :: (d ++ t)) = _
    simp only [runsGo, hc, if_true, Option.getD_none]
    rw [runsGo_digits (fun x hx => hd x (by simp [hx])) [c] t, runsGo_flush _ ht]
    simp

theorem headNonDigit_dropWhile (l : List Char) :
    headNonDigit (l.dropWhile isDigitCh) = true := by
  induction l with
  | nil => rfl
  | cons c t ih =>
    by_cases hc : isDigitCh c = true
    · simpa [List.dropWhile_cons, hc] using ih
    · simp [List.dropWhile_cons, hc, headNonDigit]

theorem evStr_not_digit : ∀ c ∈ evStr, isDigitCh c = false := by decide

theorem space_run_not_digit {l : List Char} :
    ∀ c ∈ l.takeWhile isSpaceCh, isDigitCh c = false :=
  fun _ hc => space_not_digit (List.mem_takeWhile_imp hc)

/-- Structure of a successful match of `(EventId\s*=\s*){old}\b`: the text
splits as the captured group, the digits of `old`, and a remainder that
does not begin with a word character; the group contains no digit. -/
theorem tryMatchEq_some {old : Nat} {s g r : List Char}
    (h : tryMatchEq old s = some (g, r)) :
    s = g ++ (natDigits old ++ r) ∧ (∀ c ∈ g, isDigitCh c = false) ∧
      headNonWord r = true := by
  unfold tryMatchEq at h
  cases h1 : litp evStr s with
  | none => rw [h1] at h; cases h
  | some r1 =>
    rw [h1] at h
    dsimp only at h
    cases h2 : litp [('=')] (r1.dropWhile isSpaceCh) with
    | none => rw [h2] at h; cases h
    | some r3 =>
      rw [h2] at h
      dsimp only at h
      cases h3 : litp (natDigits old) (r3.dropWhile isSpaceCh) with
      | none => rw [h3] at h; cases h
      | some r5 =>
        rw [h3] at h
        dsimp only at h
        by_cases h4 : headNonWord r5 = true
        · rw [if_pos h4] at h
          have hpair := Option.some.inj h
          have hg : g = evStr ++ List.takeWhile isSpaceCh r1 ++
              ('=') :: List.takeWhile isSpaceCh r3 := (congrArg Prod.fst hpair).symm
          have hrr : r = r5 := (congrArg Prod.snd hpair).symm
          subst hrr
          refine ⟨?_, ?_, h4⟩
          · have hs1 : s = evStr ++ r1 := litp_some h1
            have hr1 : r1 = r1.takeWhile isSpaceCh ++ r1.dropWhile isSpaceCh :=
              (List.takeWhile_append_dropWhile isSpaceCh r1).symm
            have hr2 : r1.dropWhile isSpaceCh = ('=') :: r3 := litp_some h2
            have hr3 : r3 = r3.takeWhile isSpaceCh ++ r3.dropWhile isSpaceCh :=
              (List.takeWhile_append_dropWhile isSpaceCh r3).symm
            have hr4 : r3.dropWhile isSpaceCh = natDigits old ++ r := litp_some h3
            rw [hs1, hr1, hr2, hr3, hr4, hg]
            simp [List.append_assoc]
          · rw [hg]
            intro c hc
            rcases List.mem_append.mp hc with hc | hc
            · rcases List.mem_append.mp hc with hc | hc
              · exact evStr_not_digit c hc
              · exact space_run_not_digit c hc
            · rcases List.mem_cons.mp hc with rfl | hc
              · decide
              · exact space_run_not_digit c hc
        · rw [if_neg h4] at h
          cases h

theorem tryMatchEq_digit_none {old : Nat} {c : Char} {t : List Char}
    (hc : isDigitCh c = true) : tryMatchEq old (c :: t) = none := by
  have hEc : (('E') == c) = false := by
    cases hb : (('E') == c) with
    | false => rfl
    | true =>
      have hce : ('E') = c := beq_iff_eq.mp hb
      rw [← hce] at hc
      exact absurd hc (by decide)
  unfold tryMatchEq
  have : litp evStr (c :: t) = none := by
    show litp (('E') :: _) (c :: t) = none
    simp [litp, hEc]
  rw [this]

theorem reSubGo_headNonDigit (old new : Nat) :
    ∀ (f : Nat) (t : List Char), headNonDigit t = true →
      headNonDigit (reSubGo old new f t) = true := by
  intro f t ht
  cases f with
  | zero => exact ht
  | succ f =>
    cases t with
    | nil => rfl
    | cons c rest =>
      cases hm : tryMatchEq old (c :: rest) with
      | some gr =>
        obtain ⟨g, r5⟩ := gr
        obtain ⟨hs, hg, -⟩ := tryMatchEq_some hm
        have hout : reSubGo old new (f + 1) (c :: rest) =
            g ++ (natDigits new ++ reSubGo old new f r5) := by
          simp [reSubGo, hm]
        rw [hout]
        cases g with
        | nil =>
          exfalso
          simp only [List.nil_append] at hs
          have hcd : isDigitCh c = true := by
            have hne := natDigits_ne_nil old
            cases hnd : natDigits old with
            | nil => exact absurd hnd hne
            | cons a d =>
              rw [hnd] at hs
              have : c = a := by
                simpa using congrArg (fun l => l.headI) hs
              rw [this]
              exact natDigits_all_digit old a (by simp [hnd])
          simp only [headNonDigit, hcd] at ht
          exact absurd ht (by decide)
        | cons a g =>
          have ha : isDigitCh a = false := hg a (by simp)
          simp [headNonDigit, ha]
      | none =>
        have hout : reSubGo old new (f + 1) (c :: rest) =
            c :: reSubGo old new f rest := by
          simp [reSubGo, hm]
        rw [hout]
        exact ht

theorem reSubGo_digit_prefix (old new : Nat) :
    ∀ (d : List Char), (∀ c ∈ d, isDigitCh c = true) → ∀ (f : Nat) (t : List Char),
      ∃ f2, f2 ≤ f ∧ reSubGo old new f (d ++ t) = d ++ reSubGo old new f2 t := by
  intro d
  induction d with
  | nil => intro _ f t; exact ⟨f, Nat.le_refl f, rfl⟩
  | cons c d ih =>
    intro hd f t
    cases f with
    | zero => exact ⟨0, Nat.le_refl 0, rfl⟩
    | succ f =>
      have hc : isDigitCh c = true := hd c (by simp)
      have hnone : tryMatchEq old (c :: (d ++ t)) = none := tryMatchEq_digit_none hc
      obtain ⟨f2, hle, heq⟩ := ih (fun x hx => hd x (by simp [hx])) f t
      refine ⟨f2, Nat.le_trans hle (Nat.le_succ f), ?_⟩
      rw [List.cons_append]
      have hout : reSubGo old new (f + 1) (c :: (d ++ t)) =
          c :: reSubGo old new f (d ++ t) := by
        simp [reSubGo, hnone]
      rw [hout, heq]
      rfl

/-- C7: the rewriters' substitution matches only exact identifier
occurrences on a word boundary, so for every file content and every digit
string `w` other than the decimal representations of `old` and `new`, the
multiset of maximal digit runs equal to `w` is unchanged by the
substitution — in particular an unrelated longer number containing `old`'s
digits as a substring (such as 1234 when 12 is remapped) is never altered. -/
theorem claim_c7_word_boundary (old new : Nat) (w : List Char)
    (hw : ∀ c ∈ w, isDigitCh c = true)
    (hwo : w ≠ natDigits old) (hwn : w ≠ natDigits new) :
    ∀ (f : Nat) (s : List Char), numRuns w (reSubGo old new f s) = numRuns w s := by
  intro f
  induction f using Nat.strong_induction_on with
  | _ f IH =>
    intro s
    cases f with
    | zero => rfl
    | succ f =>
      cases s with
      | nil => rfl
      | cons c rest =>
        cases hm : tryMatchEq old (c :: rest) with
        | some gr =>
          obtain ⟨g, r5⟩ := gr
          obtain ⟨hs, hg, hr⟩ := tryMatchEq_some hm
          have hrd : headNonDigit r5 = true := headNonDigit_of_headNonWord hr
          have hout : reSubGo old new (f + 1) (c :: rest) =
              g ++ (natDigits new ++ reSubGo old new f r5) := by
            simp [reSubGo, hm]
          rw [hout]
          conv_rhs => rw [hs]
          unfold numRuns
          rw [parseRuns_append_nonDigit hg, parseRuns_append_nonDigit hg,
            parseRuns_run (natDigits_ne_nil old) (natDigits_all_digit old) hrd,
            parseRuns_run (natDigits_ne_nil new) (natDigits_all_digit new)
              (reSubGo_headNonDigit old new f r5 hrd),
            List.count_cons, List.count_cons]
          have hIH : numRuns w (reSubGo old new f r5) = numRuns w r5 :=
            IH f (Nat.lt_succ_self f) r5
          unfold numRuns at hIH
          rw [hIH]
          have e1 : (natDigits new == w) = false := by
            simpa using Ne.symm hwn
          have e2 : (natDigits old == w) = false := by
            simpa using Ne.symm hwo
          rw [e1, e2]
        | none =>
          have hout : reSubGo old new (f + 1) (c :: rest) =
              c :: reSubGo old new f rest := by
            simp [reSubGo, hm]
          rw [hout]
          by_cases hc : isDigitCh c = true
          · have htake : ∀ x ∈ rest.takeWhile isDigitCh, isDigitCh x = true :=
              fun x hx => List.mem_takeWhile_imp hx
            obtain ⟨f2, hle, heq⟩ := reSubGo_digit_prefix old new
              (rest.takeWhile isDigitCh) htake f (rest.dropWhile isDigitCh)
            have hrest : rest.takeWhile isDigitCh ++ rest.dropWhile isDigitCh = rest :=
              List.takeWhile_append_dropWhile isDigitCh rest
            rw [hrest] at heq
            rw [heq]
            unfold numRuns
            have hrun : ∀ u : List Char, headNonDigit u = true →
                parseRuns (c :: (rest.takeWhile isDigitCh ++ u)) =
                  (c :: rest.takeWhile isDigitCh) :: parseRuns u := by
              intro u hu
              have := parseRuns_run (t := u) (d := c :: rest.takeWhile isDigitCh)
                (by simp) ?_ hu
              · rw [← this, List.cons_append]
              · intro x hx
                rcases List.mem_cons.mp hx with rfl | hx
                · exact hc
                · exact htake x hx
            rw [hrun _ (reSubGo_headNonDigit old new f2 _ (headNonDigit_dropWhile rest))]
            conv_rhs =>
              rw [← hrest, hrun _ (headNonDigit_dropWhile rest)]
            rw [List.count_cons, List.count_cons]
            have hIH : numRuns w (reSubGo old new f2 (rest.dropWhile isDigitCh)) =
                numRuns w (rest.dropWhile isDigitCh) :=
              IH f2 (Nat.lt_succ_of_le hle) (rest.dropWhile isDigitCh)
            unfold numRuns at hIH
            rw [hIH]
          · have hcf : isDigitCh c = false := by simpa using hc
            unfold numRuns
            rw [parseRuns_cons_nonDigit hcf, parseRuns_cons_nonDigit hcf]
            exact IH f (Nat.lt_succ_self f) rest

/-- Closed instance of `claim_c7_word_boundary`: remapping 12 to 99 leaves
the unrelated longer number 1234 intact. -/
theorem claim_c7_word_boundary_witness :
    (∀ c ∈ (("1234").toList), isDigitCh c = true) ∧
    numRuns (("1234").toList)
      (reSubEventId 12 99 (("EventId = 12, other = 1234").toList)) =
      numRuns (("1234").toList) (("EventId = 12, other = 1234").toList) :=
  ⟨by decide,
   claim_c7_word_boundary 12 99 (("1234").toList) (by decide) (by decide) (by decide)
     ((("EventId = 12, other = 1234").toList).length)
     (("EventId = 12, other = 1234").toList)⟩

end EventIds
